import Mathlib

/-!
Verification of the Jointformer repository against its specification.

The development shallowly embeds the parts of the code that the claims
are about:

* `hybridForward` embeds `HybridSelfAttention.forward`
  (src/jointformer/layers/hybrid_attention.py), at the level of one
  (batch, head) slice: the query/key/value projection and the head
  reshape (lines 57-60) are index plumbing shared by every branch, so
  the projected per-head tensors `q k v : Fin T → Fin hs → ℝ` are taken
  as inputs and quantified universally in the theorems.  Dropout is
  modelled in eval mode (identity), and floating-point `-inf` produced
  by `masked_fill` is modelled by the type `Fv` whose `exp` is exactly 0,
  matching IEEE `exp(-inf) = 0` used by the softmax.
* `jfForward`, `jfGetLoss` and friends embed `Jointformer.forward` /
  `Jointformer.get_loss` (src/jointformer/models/jointformer.py).  The
  claims these decide are about task routing, which `ModelOutput` fields
  are populated and tensor shapes, so tensors are modelled by their
  shapes (`STensor`); the transformer body (whose source is outside
  src/) is an abstract function parameter of the model record.
* `genRow` / `jfGenerate` embed `Jointformer.generate_single_token` /
  `Jointformer.generate`; the model forward, temperature/top-k filter
  and the random draw of one step are abstracted into a sampling
  function `sample : ℕ → List ℤ → ℤ` (step index, current context),
  since the claims about the loop hold for every sampled value.
* `sampleTop1` embeds the single-step sampling pipeline of
  `generate_single_token` (temperature scaling, top-k filter with k = 1,
  softmax, multinomial draw); `torch.multinomial` is modelled by inverse
  CDF sampling `pick` from a uniform draw `u ∈ [0, 1)`.
* `get_lr` embeds `Trainer._get_lr`
  (src/hybrid_transformer/trainers/trainer.py).
* `validScore` embeds the validity-score computation of
  `Trainer.estimate_loss`, with Python's raising division modelled by
  `pyDiv` returning `none` on a zero denominator.
* The weight-tying claim is modelled by a heap of parameter storages and
  key-valued module references (`ParamRefs`), mirroring Python object
  aliasing of `nn.Parameter` tensors.
-/

/- ### Tensors as shapes, ModelOutput, and the Jointformer model record -/

/-- A tensor, modelled by its shape.  The claims about `Jointformer.forward`
and `Jointformer.get_loss` concern task routing, which output fields are
populated, and output shapes; no claim depends on numeric entries at this
level (numeric attention content is modelled separately at the layer level). -/
structure STensor where
  shape : List ℕ
deriving DecidableEq, Repr

/-- `nn.Linear(inDim, outDim)` applied to a tensor: the last dimension is
replaced by the output dimension.  Also used for the prediction heads, which
end in a linear layer of their output width. -/
def linearApply (outDim : ℕ) (t : STensor) : STensor :=
  ⟨t.shape.dropLast ++ [outDim]⟩

/-- `Jointformer._get_cls_embeddings`: `embeddings[:, 0]` removes the
sequence dimension. -/
def getClsEmb (t : STensor) : STensor :=
  match t.shape with
  | b :: _ :: rest => ⟨b :: rest⟩
  | s => ⟨s⟩

/-- `Jointformer._get_lm_embeddings`: `embeddings[:, [-1]]` when
`next_token_only` (keeps a sequence dimension of size 1), otherwise the
embeddings unchanged. -/
def getLmEmb (t : STensor) (next_token_only : Bool) : STensor :=
  if next_token_only then
    match t.shape with
    | b :: _ :: rest => ⟨b :: 1 :: rest⟩
    | s => ⟨s⟩
  else t

/-- The `ModelOutput` bundle returned by `Jointformer.forward` and
`Jointformer.get_loss`.  Optional fields are `none` exactly when the code
passes `None` (unset). -/
structure ModelOutput where
  attention_mask : Option STensor
  embeddings : STensor
  cls_embeddings : STensor
  lm_embeddings : STensor
  logits_generation : Option STensor
  logits_physchem : Option STensor
  logits_prediction : Option STensor
  layer_embeddings : Option STensor
  loss : Option STensor
deriving DecidableEq, Repr

/-- The Jointformer model.  The transformer body (`super().forward`, whose
source file is not part of the analysed sources) is an abstract function
from `(input_ids, attention_mask, is_causal)` to the embeddings tensor;
every claim-level theorem either holds for an arbitrary body or states its
shape assumption explicitly. -/
structure JF where
  vocab_size : ℕ
  embedding_dim : ℕ
  max_seq_len : ℕ
  num_physchem_tasks : ℕ
  num_prediction_tasks : ℕ
  prediction_task_type : String
  body : STensor → Option STensor → Bool → STensor

/-- The part of `Jointformer.forward` after task routing: run the body,
extract the CLS / LM embedding views, and populate exactly the logits
fields of the chosen branch, with `loss` unset. -/
def jfForwardBody (M : JF) (input_ids : STensor) (attention_mask : Option STensor)
    (is_causal : Bool) (amask : Option STensor) (next_token_only : Bool) : ModelOutput :=
  let emb := M.body input_ids amask is_causal
  let cls := getClsEmb emb
  let lm := getLmEmb emb next_token_only
  { attention_mask := attention_mask
    embeddings := emb
    cls_embeddings := cls
    lm_embeddings := lm
    logits_generation := if is_causal then some (linearApply M.vocab_size lm) else none
    logits_physchem := if is_causal then none else some (linearApply M.num_physchem_tasks cls)
    logits_prediction := if is_causal then none else some (linearApply M.num_prediction_tasks cls)
    layer_embeddings := none
    loss := none }

/-- `Jointformer.forward`: task routing to `(is_causal, mask)`, with a
`ValueError` on an unrecognized task. -/
def jfForward (M : JF) (input_ids : STensor) (task : String)
    (attention_mask : Option STensor) (next_token_only : Bool) :
    Except String ModelOutput :=
  if task = "generation" then
    .ok (jfForwardBody M input_ids attention_mask true none next_token_only)
  else if task = "physchem" ∨ task = "prediction" ∨ task = "mlm" then
    .ok (jfForwardBody M input_ids attention_mask false attention_mask next_token_only)
  else
    .error ("Variable `task` must be either `generation`, `mlm`, `prediction` or `physchem`. Passed value: " ++ task)

/-- Cross-entropy / MSE losses reduce to a scalar; their value is not at
issue in any claim, only whether `loss` is populated. -/
def scalarLoss : STensor := ⟨[]⟩

/-- `Jointformer.get_loss_lm`: forward with task `generation`,
`next_token_only=False`; when labels are given, populate `loss`. -/
def jfGetLossLm (M : JF) (input_ids : STensor) (attention_mask : Option STensor)
    (input_labels : Option STensor) : Except String ModelOutput :=
  (jfForward M input_ids "generation" attention_mask false).map fun out =>
    match input_labels with
    | some _ => { out with loss := some scalarLoss }
    | none => out

/-- `Jointformer.get_loss_mlm`: forward with task `mlm`, then overwrite
`logits_generation` with the MLM head applied to every position's
embedding; when labels are given, populate `loss`. -/
def jfGetLossMlm (M : JF) (input_ids : STensor) (attention_mask : Option STensor)
    (input_labels : Option STensor) : Except String ModelOutput :=
  (jfForward M input_ids "mlm" attention_mask false).map fun out =>
    let out' := { out with logits_generation := some (linearApply M.vocab_size out.embeddings) }
    match input_labels with
    | some _ => { out' with loss := some scalarLoss }
    | none => out'

/-- `Jointformer.get_loss_physchem`: `predict` (forward with task
`prediction`); when properties are given, populate `loss` with the MSE. -/
def jfGetLossPhyschem (M : JF) (input_ids : STensor) (attention_mask : Option STensor)
    (properties : Option STensor) : Except String ModelOutput :=
  (jfForward M input_ids "prediction" attention_mask false).map fun out =>
    match properties with
    | some _ => { out with loss := some scalarLoss }
    | none => out

/-- `Jointformer.get_loss_prediction`: `predict`, then a loss chosen by the
prediction task type, with `ValueError` on an invalid type or task count. -/
def jfGetLossPrediction (M : JF) (input_ids : STensor) (attention_mask : Option STensor)
    (properties : Option STensor) : Except String ModelOutput :=
  match jfForward M input_ids "prediction" attention_mask false with
  | .error e => .error e
  | .ok out =>
    match properties with
    | none => .ok out
    | some _ =>
      if M.prediction_task_type = "classification" then
        if M.num_prediction_tasks = 1 then .ok { out with loss := some scalarLoss }
        else if 1 < M.num_prediction_tasks then .ok { out with loss := some scalarLoss }
        else .error "Variable `num_prediction_tasks` must be greater than 0."
      else if M.prediction_task_type = "regression" then .ok { out with loss := some scalarLoss }
      else .error "Variable `prediction_task_type` must be either `classification` or `regression`."

/-- `Jointformer.get_loss`: string dispatch over the loss-facing task set,
with a `ValueError` on an unrecognized task. -/
def jfGetLoss (M : JF) (input_ids : STensor) (attention_mask : Option STensor)
    (task : String) (input_labels : Option STensor) (properties : Option STensor) :
    Except String ModelOutput :=
  if task = "lm" ∨ task = "generation" then
    jfGetLossLm M input_ids attention_mask input_labels
  else if task = "mlm" then
    jfGetLossMlm M input_ids attention_mask input_labels
  else if task = "prediction" then
    jfGetLossPrediction M input_ids attention_mask properties
  else if task = "physchem" then
    jfGetLossPhyschem M input_ids attention_mask properties
  else
    .error "Variable `task` must be either `lm`, `mlm`, `prediction` or `finetune`."

/-- `Except.isOk` as a plain boolean observer. -/
def exceptOk {ε α : Type _} : Except ε α → Bool
  | .ok _ => true
  | .error _ => false

/- ### The generation loop -/

/-- Whether the last token of a row equals the end or the pad token
(`torch.logical_or(idx[:, [-1]] == eos_token_id, idx[:, [-1]] == pad_token_id)`).
An empty row has no last token (the source never reaches this case: the
running sequence always contains the generation prefix). -/
def endLast (eos pad : ℤ) (row : List ℤ) : Bool :=
  ((row.getLast?).map fun x => decide (x = eos) || decide (x = pad)).getD false

/-- One row of the sampling loop of `Jointformer.generate_single_token`:
`steps` remaining iterations, `t` the current step index, `flag` the row's
`eos_flag`, `row` the running sequence.  Each iteration updates the flag
(guarded by Python truthiness `if eos_token_id:`, i.e. only when
`eos ≠ 0`), samples a token (`sample t row` abstracts the model forward,
temperature/top-k filter and the multinomial draw), forces it to `pad`
when the flag is set, and appends it. -/
def genRow (eos pad : ℤ) (sample : ℕ → List ℤ → ℤ) :
    ℕ → ℕ → Bool → List ℤ → Bool × List ℤ
  | 0, _, flag, row => (flag, row)
  | n + 1, t, flag, row =>
    let flag' := if eos ≠ 0 then flag || endLast eos pad row else flag
    let nxt := if flag' then pad else sample t row
    genRow eos pad sample n (t + 1) flag' (row ++ [nxt])

/-- `idx[sequence_idx, -1] = eos_token_id`: overwrite the last position. -/
def setLastTok (row : List ℤ) (x : ℤ) : List ℤ :=
  row.dropLast ++ [x]

/-- The completion check of `Jointformer.generate`: any sequence that never
produced an end token gets one force-written at its last position. -/
def forceAppend (eos : ℤ) (rows : List (List ℤ)) : List (List ℤ) :=
  rows.map fun row => if eos ∈ row then row else setLastTok row eos

/-- `Jointformer.generate`: expand the task-specific seed sequence to a
batch, run the sampling loop for `max_molecule_length - 2` steps (Python's
`range` of a negative count is empty, matching truncated ℕ subtraction),
then force-append the end token to unterminated sequences.  `sample b t ctx`
abstracts the sampled token of batch row `b` at step `t` with context `ctx`. -/
def jfGenerate (eos pad : ℤ) (sample : ℕ → ℕ → List ℤ → ℤ) (batch : ℕ)
    (seed : List ℤ) (maxMolLen : ℕ) : List (List ℤ) :=
  let rows := (List.range batch).map fun b =>
    (genRow eos pad (sample b) (maxMolLen - 2) 0 false seed).2
  forceAppend eos rows

/- ### Evaluation validity score -/

/-- Python division, which raises `ZeroDivisionError` on a zero
denominator: modelled as `none` in that case. -/
def pyDiv (a b : ℚ) : Option ℚ :=
  if b = 0 then none else some (a / b)

/-- The validity-score computation of `Trainer.estimate_loss`:
`out['valid'] = sum(valid) / len(valid)` where `valid` is the list of
per-sample boolean validity judgements (Python sums booleans as integers). -/
def validScore (valid : List Bool) : Option ℚ :=
  pyDiv (valid.countP id : ℕ) (valid.length : ℕ)

/- ### Weight tying and serialization -/

/-- A heap of parameter storages: a storage key names one weight matrix. -/
def Heap : Type := ℕ → ℕ → ℕ → ℚ

/-- The parameter references held by the three tied modules; two modules
alias the same storage exactly when their keys agree, mirroring Python
attribute assignment of `nn.Parameter` objects. -/
structure ParamRefs where
  token_embedding : ℕ
  lm_head : ℕ
  mlm_head : ℕ
deriving DecidableEq, Repr

/-- `Jointformer.__init__` parameter creation: `token_embedding` (created
by the superclass, storage 0), `lm_head` (storage 1) and `mlm_head`
(storage 2) each own fresh storage; with `tie_weights` the source then
executes `self.token_embedding.weight = self.lm_head.weight` and
`self.mlm_head.weight = self.lm_head.weight`, so all three reference the
`lm_head` storage. -/
def jfInitParams (tie_weights : Bool) : ParamRefs :=
  if tie_weights then ⟨1, 1, 1⟩ else ⟨0, 1, 2⟩

/-- Overwrite one entry of one storage (an in-place parameter mutation). -/
def heapWrite (h : Heap) (key i j : ℕ) (v : ℚ) : Heap :=
  fun k a b => if k = key ∧ a = i ∧ b = j then v else h k a b

/-- Copy a whole saved matrix in place into an existing storage. -/
def copyIntoHeap (h : Heap) (key : ℕ) (m : ℕ → ℕ → ℚ) : Heap :=
  fun k => if k = key then m else h k

/-- Modelled from the spec: the saved checkpoint state for the three tied
parameters, one saved matrix per module entry of the state dict (the body
of `Transformer.save` / `state_dict` is not among the analysed sources). -/
def saveStateDict (p : ParamRefs) (h : Heap) :
    (ℕ → ℕ → ℚ) × (ℕ → ℕ → ℚ) × (ℕ → ℕ → ℚ) :=
  (h p.token_embedding, h p.lm_head, h p.mlm_head)

/-- Modelled from the spec: `Transformer.load_pretrained` (called by
`Jointformer.load_pretrained`; its body is not among the analysed sources)
restores a saved state dict by copying each saved tensor's values in place
into the already-constructed model's parameter storages, leaving the
parameter references — and hence any aliasing established at
construction — unchanged ("reloading must not silently duplicate
storage"). -/
def loadStateDict (p : ParamRefs) (h : Heap)
    (saved_tok saved_lm saved_mlm : ℕ → ℕ → ℚ) : ParamRefs × Heap :=
  (p, copyIntoHeap (copyIntoHeap (copyIntoHeap h p.token_embedding saved_tok)
        p.lm_head saved_lm) p.mlm_head saved_mlm)

/-- The LM head's weight matrix as observed through its reference. -/
def lmHeadWeight (p : ParamRefs) (h : Heap) : ℕ → ℕ → ℚ := h p.lm_head

/-- The MLM head's weight matrix as observed through its reference. -/
def mlmHeadWeight (p : ParamRefs) (h : Heap) : ℕ → ℕ → ℚ := h p.mlm_head

/-- The token-embedding table as observed through its reference. -/
def tokenEmbeddingWeight (p : ParamRefs) (h : Heap) : ℕ → ℕ → ℚ := h p.token_embedding

/- ### Attention: real-valued model of `HybridSelfAttention.forward` -/

noncomputable section

open scoped BigOperators

/-- A floating-point value that may be `-inf` (the fill value of
`masked_fill`): `neginf` or a finite real. -/
inductive Fv where
  | neginf : Fv
  | val : ℝ → Fv

/-- `exp` extended to the fill values: IEEE `exp(-inf) = 0` exactly, which
is what makes masked positions drop out of the softmax. -/
def expF : Fv → ℝ
  | .neginf => 0
  | .val x => Real.exp x

/-- The raw pre-softmax scores of one (batch, head) slice:
`(q @ k.transpose(-2, -1)) * (1.0 / math.sqrt(k.size(-1)))`. -/
def attScores {T hs : ℕ} (q k : Fin T → Fin hs → ℝ) (i j : Fin T) : ℝ :=
  (∑ c, q i c * k j c) * (1 / Real.sqrt hs)

/-- One entry of the registered buffer
`torch.tril(torch.ones(block_size, block_size))`; positions outside the
buffer are zero (the source only reads entries of the `[:T, :T]` slice,
which exists when `T ≤ block_size`). -/
def maskCausalEntry (blockSize i j : ℕ) : ℝ :=
  if j ≤ i ∧ i < blockSize ∧ j < blockSize then 1 else 0

/-- `att.masked_fill(self.mask_causal[:, :, :T, :T] == 0, float('-inf'))`. -/
def causalFill {T : ℕ} (blockSize : ℕ) (s : Fin T → Fin T → ℝ) :
    Fin T → Fin T → Fv :=
  fun i j => if maskCausalEntry blockSize i j = 0 then Fv.neginf else Fv.val (s i j)

/-- `att.masked_fill(mask == 0, float('-inf'))` for a boolean mask where
`true` means the position takes part in attention. -/
def boolMaskFill {T : ℕ} (m : Fin T → Fin T → Bool) (s : Fin T → Fin T → ℝ) :
    Fin T → Fin T → Fv :=
  fun i j => if m i j = false then Fv.neginf else Fv.val (s i j)

/-- The masked score matrix of the explicit (non-fused) path of
`HybridSelfAttention.forward`: causal fill for `lm`, mask fill for `mlm`
with a supplied mask, and — matching the absence of a final `else` in the
source — the raw scores unchanged for any other task. -/
def explicitAttScores {T hs : ℕ} (blockSize : ℕ) (task : String)
    (mask : Option (Fin T → Fin T → Bool)) (q k : Fin T → Fin hs → ℝ) :
    Fin T → Fin T → Fv :=
  let att := attScores q k
  if task = "lm" then causalFill blockSize att
  else if task = "mlm" then
    match mask with
    | some m => boolMaskFill m att
    | none => fun i j => Fv.val (att i j)
  else fun i j => Fv.val (att i j)

/-- `F.softmax(att, dim=-1)` over one query row of masked scores; a masked
entry contributes `exp(-inf) = 0` to numerator and denominator. -/
def softmaxRow {T : ℕ} (s : Fin T → Fv) (j : Fin T) : ℝ :=
  expF (s j) / ∑ p, expF (s p)

/-- `att @ v`: the weighted sum of values. -/
def attnApply {T hs : ℕ} (w : Fin T → Fin T → ℝ) (v : Fin T → Fin hs → ℝ) :
    Fin T → Fin hs → ℝ :=
  fun i c => ∑ j, w i j * v j c

/-- `HybridSelfAttention.forward` on one (batch, head) slice, in eval mode
(dropout is the identity).  The fused path (`self.flash`) dispatches on the
task and raises `ValueError` otherwise, returning no attention weights
(`att = None`); `F.scaled_dot_product_attention` is modelled by its
mathematical semantics (masked softmax times values), which the spec states
to be numerically equivalent to the explicit path.  The explicit path
computes the masked scores, softmax, and weighted values, returning the raw
weights for introspection — and raises on no task at all. -/
def hybridForward {T hs : ℕ} (flash : Bool) (blockSize : ℕ) (task : String)
    (mask : Option (Fin T → Fin T → Bool)) (q k v : Fin T → Fin hs → ℝ) :
    Except String ((Fin T → Fin hs → ℝ) × Option (Fin T → Fin T → ℝ)) :=
  if flash then
    if task = "lm" then
      .ok (attnApply (fun i j => softmaxRow (causalFill blockSize (attScores q k) i) j) v, none)
    else if task = "mlm" then
      .ok (attnApply (fun i j => softmaxRow (explicitAttScores blockSize "mlm" mask q k i) j) v, none)
    else
      .error "Variable `task` must be either `lm` or `mlm`."
  else
    .ok (attnApply (fun i j => softmaxRow (explicitAttScores blockSize task mask q k i) j) v,
         some fun i j => softmaxRow (explicitAttScores blockSize task mask q k i) j)

/- ### Learning-rate schedule of `Trainer._get_lr` -/

/-- `Trainer._get_lr`: linear warmup below `warmup_iters`, the `min_lr`
floor strictly beyond `lr_decay_iters`, and cosine decay in between.  A
pure function of the iteration index and the four configured constants. -/
def get_lr (learning_rate min_lr : ℝ) (warmup_iters lr_decay_iters : ℕ)
    (it : ℕ) : ℝ :=
  if it < warmup_iters then learning_rate * it / warmup_iters
  else if lr_decay_iters < it then min_lr
  else
    let r : ℝ := ((it : ℝ) - warmup_iters) / ((lr_decay_iters : ℝ) - warmup_iters)
    let coeff : ℝ := 0.5 * (1 + Real.cos (Real.pi * r))
    min_lr + coeff * (learning_rate - min_lr)

/- ### Single-step sampling of `generate_single_token` -/

/-- The largest element of a list of reals (`torch.topk(logits, 1)` keeps
exactly the maximum). -/
def listMax : List ℝ → ℝ
  | [] => 0
  | [x] => x
  | x :: y :: xs => max x (listMax (y :: xs))

/-- Inverse-CDF categorical sampling: `torch.multinomial(probs, 1)` driven
by a uniform draw `u ∈ [0, 1)` walks the cumulative distribution and
returns the first index whose cumulative probability exceeds `u`. -/
def pick : List ℝ → ℝ → ℕ
  | [], _ => 0
  | p :: ps, u => if u < p then 0 else pick ps (u - p) + 1

/-- The top-k crop with `k = 1`:
`logits[logits < v[:, [-1]]] = -float('Inf')` keeps exactly the entries
equal to the top value and fills every other entry with `-inf`. -/
def top1Filter (scaled : List ℝ) : List Fv :=
  scaled.map fun x => if x < listMax scaled then Fv.neginf else Fv.val x

/-- `F.softmax(logits, dim=-1)` over the cropped row: each entry's `exp`
divided by the row sum of `exp`s (`exp(-inf) = 0` for cropped entries). -/
def top1Probs (scaled : List ℝ) : List ℝ :=
  (top1Filter scaled).map fun f => expF f / ((top1Filter scaled).map expF).sum

/-- The per-row sampling pipeline of `generate_single_token` with
`top_k = 1`: scale the final-step logits by the temperature, crop below
the top value, softmax, and draw one token from the categorical
distribution via the uniform draw `u`. -/
def sampleTop1 (logits : List ℝ) (temperature u : ℝ) : ℕ :=
  pick (top1Probs (logits.map (· / temperature))) u

end

/- ### Concrete instances used by witnesses and counterexamples -/

/-- A sampler that emits the end token 2 at step 0 and then 9. -/
def c6wSample : ℕ → List ℤ → ℤ := fun t _ => if t = 0 then 2 else 9

/-- A sampler that emits token 0 at step 0 and then 5. -/
def c6cSample : ℕ → List ℤ → ℤ := fun t _ => if t = 0 then 0 else 5

/-- A constant batch sampler emitting token 7. -/
def c5Sample : ℕ → ℕ → List ℤ → ℤ := fun _ _ _ => 7

/-- Zero per-head projections on a length-1 slice. -/
def zf1 : Fin 1 → Fin 1 → ℝ := fun _ _ => 0

/-- Zero per-head projections on a length-2 slice. -/
def zq2 : Fin 2 → Fin 1 → ℝ := fun _ _ => 0

/-- A concrete model: vocabulary 10, and a body producing embeddings of
shape (2, 4, 8) — batch 2, sequence 4, embedding dim 8. -/
def M10 : JF where
  vocab_size := 10
  embedding_dim := 8
  max_seq_len := 64
  num_physchem_tasks := 200
  num_prediction_tasks := 1
  prediction_task_type := "regression"
  body := fun _ _ _ => ⟨[2, 4, 8]⟩

/-- A concrete (2, 4) input id tensor. -/
def ids24 : STensor := ⟨[2, 4]⟩

/- ### Helper lemmas about the sampling loop -/

/-- Splitting the sampling loop: running `a + b` iterations is running `a`
iterations and then `b` more from the resulting state. -/
theorem genRow_add (eos pad : ℤ) (sample : ℕ → List ℤ → ℤ) (a : ℕ) :
    ∀ (b t : ℕ) (flag : Bool) (row : List ℤ),
      genRow eos pad sample (a + b) t flag row =
        genRow eos pad sample b (t + a)
          (genRow eos pad sample a t flag row).1
          (genRow eos pad sample a t flag row).2 := by
  induction a with
  | zero => intro b t flag row; simp [genRow]
  | succ a ih =>
    intro b t flag row
    have h1 : a + 1 + b = (a + b) + 1 := by omega
    rw [h1]
    show genRow eos pad sample (a + b) (t + 1) _ _ = _
    rw [ih]
    have h2 : t + 1 + a = t + (a + 1) := by omega
    rw [h2]
    rfl

/-- Once the flag is set, or the row already ends with an end-or-pad
token, every remaining iteration appends the pad token. -/
theorem genRow_pad (eos pad : ℤ) (sample : ℕ → List ℤ → ℤ) (heos : eos ≠ 0) :
    ∀ (n t : ℕ) (flag : Bool) (row : List ℤ),
      (flag = true ∨ endLast eos pad row = true) →
      (genRow eos pad sample n t flag row).2 = row ++ List.replicate n pad := by
  intro n
  induction n with
  | zero => intro t flag row _; simp [genRow]
  | succ n ih =>
    intro t flag row h
    show (genRow eos pad sample n (t + 1) _ _).2 = _
    have hflag : (if eos ≠ 0 then flag || endLast eos pad row else flag) = true := by
      rw [if_pos heos]
      rcases h with h | h
      · rw [h, Bool.true_or]
      · rw [h, Bool.or_true]
    rw [hflag]
    simp only [if_true, ite_true]
    rw [ih (t + 1) true (row ++ [pad]) (Or.inl rfl)]
    rw [List.append_assoc]
    rfl

/-- Each iteration of the sampling loop appends exactly one token. -/
theorem genRow_length (eos pad : ℤ) (sample : ℕ → List ℤ → ℤ) :
    ∀ (n t : ℕ) (flag : Bool) (row : List ℤ),
      ((genRow eos pad sample n t flag row).2).length = row.length + n := by
  intro n
  induction n with
  | zero => intro t flag row; simp [genRow]
  | succ n ih =>
    intro t flag row
    show ((genRow eos pad sample n (t + 1) _ _).2).length = _
    rw [ih]
    simp
    omega

/- ### C5: generation termination -/

/-- C5: every sequence of a batch returned by `Jointformer.generate` — for
any maximum molecule length, including 1, and any nonempty seed sequence —
is nonempty and contains the end token at or before its final position,
because an end token is force-written at the last position of any sequence
that never produced one. -/
theorem generate_contains_eos (eos pad : ℤ) (sample : ℕ → ℕ → List ℤ → ℤ)
    (batch maxMolLen : ℕ) (seed : List ℤ) (hseed : seed ≠ []) :
    ∀ row ∈ jfGenerate eos pad sample batch seed maxMolLen,
      row ≠ [] ∧ eos ∈ row := by
  intro row hrow
  unfold jfGenerate forceAppend at hrow
  simp only [List.mem_map] at hrow
  obtain ⟨r, ⟨b, _, rfl⟩, rfl⟩ := hrow
  have hlen : ((genRow eos pad (sample b) (maxMolLen - 2) 0 false seed).2).length
      = seed.length + (maxMolLen - 2) := genRow_length _ _ _ _ _ _ _
  have hne : (genRow eos pad (sample b) (maxMolLen - 2) 0 false seed).2 ≠ [] := by
    intro hnil
    rw [hnil] at hlen
    have : seed.length ≠ 0 := fun h => hseed (List.length_eq_zero.1 h)
    simp at hlen
    omega
  by_cases hmem : eos ∈ (genRow eos pad (sample b) (maxMolLen - 2) 0 false seed).2
  · rw [if_pos hmem]
    exact ⟨hne, hmem⟩
  · rw [if_neg hmem]
    unfold setLastTok
    constructor
    · simp
    · simp

/-- Witness for C5: batch 2, seed sequence `[5]`, maximum molecule length 1
(so zero sampling steps run and the safeguard itself fires). -/
theorem generate_contains_eos_witness :
    ([5] : List ℤ) ≠ [] ∧
    ([2] : List ℤ) ∈ jfGenerate 2 3 c5Sample 2 [5] 1 ∧
    (([2] : List ℤ) ≠ [] ∧ (2 : ℤ) ∈ ([2] : List ℤ)) :=
  ⟨by decide, by decide,
    generate_contains_eos 2 3 c5Sample 2 1 [5] (by decide) [2] (by decide)⟩

/- ### C6: once ended, stays ended -/

/-- C6 (amended): in `generate_single_token`, for every pad token and every
NONZERO end token id — the flag update is guarded by Python truthiness
`if eos_token_id:` — once a sequence's token appended at some step `s` is
an end-or-pad token, every token appended at each subsequent step is the
pad token, regardless of what the sampler would have produced. -/
theorem generate_single_token_once_ended (eos pad : ℤ)
    (sample : ℕ → List ℤ → ℤ) (row : List ℤ) (n s : ℕ)
    (heos : eos ≠ 0) (hs : s < n)
    (hemit : endLast eos pad (genRow eos pad sample (s + 1) 0 false row).2 = true) :
    (genRow eos pad sample n 0 false row).2 =
      (genRow eos pad sample (s + 1) 0 false row).2
        ++ List.replicate (n - (s + 1)) pad := by
  obtain ⟨m, rfl⟩ : ∃ m, n = (s + 1) + m := ⟨n - (s + 1), by omega⟩
  have hm : (s + 1) + m - (s + 1) = m := by omega
  rw [hm, genRow_add]
  exact genRow_pad eos pad sample heos m _ _ _ (Or.inr hemit)

/-- Witness for C6: end token 2, pad token 3; the sampler emits the end
token at step 0, and the two remaining steps both append the pad token. -/
theorem generate_single_token_once_ended_witness :
    (2 : ℤ) ≠ 0 ∧ (0 : ℕ) < 3 ∧
    (genRow 2 3 c6wSample 3 0 false [5]).2 =
      (genRow 2 3 c6wSample (0 + 1) 0 false [5]).2 ++ List.replicate (3 - (0 + 1)) 3 :=
  ⟨by decide, by decide,
    generate_single_token_once_ended 2 3 c6wSample [5] 3 0 (by decide) (by decide) (by decide)⟩

/-- Counterexample for C6 as stated: with `eos_token_id = 0` (falsy in
Python, so the `if eos_token_id:` guard skips the flag update entirely),
the sequence emits the end token 0 at step 0, yet the token appended at
step 1 is the sampled 5, not the pad token 1. -/
theorem once_ended_counterexample :
    endLast 0 1 (genRow 0 1 c6cSample (0 + 1) 0 false [4]).2 = true ∧
    (genRow 0 1 c6cSample 2 0 false [4]).2 = [4, 0, 5] ∧
    (genRow 0 1 c6cSample 2 0 false [4]).2 ≠
      (genRow 0 1 c6cSample (0 + 1) 0 false [4]).2
        ++ List.replicate (2 - (0 + 1)) 1 := by
  refine ⟨by decide, by decide, by decide⟩

/- ### C7: validity-score division guard -/

/-- C7: the validity score of `Trainer.estimate_loss` is computed as
`sum(valid) / len(valid)` with NO guard on the denominator: on an empty
list of evaluated samples the computation raises `ZeroDivisionError`
(modelled by `none`) instead of reporting a zero score. -/
theorem validity_score_empty_raises : validScore [] = none := by decide

/- ### C8: weight tying survives serialization -/

/-- C8: with weight tying enabled at construction, the token-embedding
table, the LM head and the MLM head reference one and the same parameter
storage; saving and reloading (an in-place state restore, modelled from
the spec) keeps the references — hence the tying — and the values intact,
and mutating the token-embedding table post-load is observable through
both the LM head's and the MLM head's weights. -/
theorem weight_tying_roundtrip (h : Heap) (i j : ℕ) (v : ℚ) :
    ((jfInitParams true).token_embedding = (jfInitParams true).lm_head ∧
      (jfInitParams true).mlm_head = (jfInitParams true).lm_head) ∧
    (loadStateDict (jfInitParams true) h
        (saveStateDict (jfInitParams true) h).1
        (saveStateDict (jfInitParams true) h).2.1
        (saveStateDict (jfInitParams true) h).2.2).1 = jfInitParams true ∧
    (∀ a b,
      lmHeadWeight
        (loadStateDict (jfInitParams true) h
          (saveStateDict (jfInitParams true) h).1
          (saveStateDict (jfInitParams true) h).2.1
          (saveStateDict (jfInitParams true) h).2.2).1
        (loadStateDict (jfInitParams true) h
          (saveStateDict (jfInitParams true) h).1
          (saveStateDict (jfInitParams true) h).2.1
          (saveStateDict (jfInitParams true) h).2.2).2 a b
        = lmHeadWeight (jfInitParams true) h a b) ∧
    lmHeadWeight (jfInitParams true)
      (heapWrite
        (loadStateDict (jfInitParams true) h
          (saveStateDict (jfInitParams true) h).1
          (saveStateDict (jfInitParams true) h).2.1
          (saveStateDict (jfInitParams true) h).2.2).2
        (jfInitParams true).token_embedding i j v) i j = v ∧
    mlmHeadWeight (jfInitParams true)
      (heapWrite
        (loadStateDict (jfInitParams true) h
          (saveStateDict (jfInitParams true) h).1
          (saveStateDict (jfInitParams true) h).2.1
          (saveStateDict (jfInitParams true) h).2.2).2
        (jfInitParams true).token_embedding i j v) i j = v := by
  refine ⟨⟨rfl, rfl⟩, rfl, ?_, ?_, ?_⟩ <;>
    simp [jfInitParams, saveStateDict, loadStateDict, copyIntoHeap,
      lmHeadWeight, mlmHeadWeight, heapWrite]


/- ### C4: loss routing populates exactly the relevant fields -/

/-- C4: `get_loss` with task `physchem` populates `logits_physchem` and
leaves `logits_generation` unset; `get_loss` with task `lm` populates
`logits_generation` and leaves `logits_prediction` and `logits_physchem`
unset; and `Jointformer.forward` always returns with `loss` unset, for
every task and every input. -/
theorem loss_routing (M : JF) (ids : STensor) (am lbl props : Option STensor)
    (task : String) (nto : Bool) :
    ((jfGetLoss M ids am "physchem" lbl props).map fun o =>
        (o.logits_physchem.isSome, o.logits_generation.isNone)) = .ok (true, true) ∧
    ((jfGetLoss M ids am "lm" lbl props).map fun o =>
        (o.logits_generation.isSome, o.logits_prediction.isNone,
          o.logits_physchem.isNone)) = .ok (true, true, true) ∧
    Option.all (fun o => o.loss.isNone) (jfForward M ids task am nto).toOption = true := by
  refine ⟨?_, ?_, ?_⟩
  · cases props <;>
      simp [jfGetLoss, jfGetLossPhyschem, jfForward, jfForwardBody, Except.map]
  · cases lbl <;>
      simp [jfGetLoss, jfGetLossLm, jfForward, jfForwardBody, Except.map]
  · unfold jfForward
    split
    · simp [jfForwardBody, Except.toOption, Option.all]
    · split
      · simp [jfForwardBody, Except.toOption, Option.all]
      · simp [Except.toOption, Option.all]

/- ### C10: generation-logits shapes (causal forward pass) -/

/-- C10 (amended): with batch size 2, sequence length 4 and vocabulary
size 10, a forward pass under the model-facing causal task tag
`generation` (the tag `get_loss` maps the loss-facing `lm` to) produces
generation logits of shape (2, 4, 10) when `next_token_only = False` and
(2, 1, 10) when `next_token_only = True`. -/
theorem forward_generation_logits_shape (M : JF) (ids : STensor)
    (am : Option STensor) (E : ℕ) (hV : M.vocab_size = 10)
    (hb : (M.body ids none true).shape = [2, 4, E]) :
    ((jfForward M ids "generation" am false).map fun o =>
        o.logits_generation.map STensor.shape) = .ok (some [2, 4, 10]) ∧
    ((jfForward M ids "generation" am true).map fun o =>
        o.logits_generation.map STensor.shape) = .ok (some [2, 1, 10]) := by
  constructor <;>
    simp [jfForward, jfForwardBody, getLmEmb, linearApply, hV, hb, Except.map]

/-- Witness for C10: the concrete model `M10` (vocabulary 10, body output
shape (2, 4, 8)) on the (2, 4) input. -/
theorem forward_generation_logits_shape_witness :
    (M10.vocab_size = 10 ∧ (M10.body ids24 none true).shape = [2, 4, 8]) ∧
    (((jfForward M10 ids24 "generation" none false).map fun o =>
        o.logits_generation.map STensor.shape) = .ok (some [2, 4, 10]) ∧
      ((jfForward M10 ids24 "generation" none true).map fun o =>
        o.logits_generation.map STensor.shape) = .ok (some [2, 1, 10])) :=
  ⟨⟨rfl, rfl⟩, forward_generation_logits_shape M10 ids24 none 8 rfl rfl⟩

/-- Counterexample for C10 as stated: `Jointformer.forward` called with the
task string `lm` raises a `ValueError` (its valid set is `generation`,
`mlm`, `prediction`, `physchem`), so no logits of any shape result. -/
theorem forward_lm_raises :
    jfForward M10 ids24 "lm" none false =
      .error "Variable `task` must be either `generation`, `mlm`, `prediction` or `physchem`. Passed value: lm" ∧
    ((jfForward M10 ids24 "lm" none false).map fun o =>
        o.logits_generation.map STensor.shape) ≠ .ok (some [2, 4, 10]) := by
  refine ⟨rfl, fun hc => Except.noConfusion hc⟩

/- ### C1: unrecognized task tags -/

/-- C1 (amended): a task tag outside the operation's OWN valid set raises
a hard error in `Jointformer.forward` (valid set `generation`, `physchem`,
`prediction`, `mlm`), in `Jointformer.get_loss` (valid set `lm`,
`generation`, `mlm`, `prediction`, `physchem`), and in the fused path of
`HybridSelfAttention.forward` (valid set `lm`, `mlm`); on the NON-fused
path of `HybridSelfAttention.forward`, however, a tag outside `{lm, mlm}`
does not raise — the branch chain has no final `else` — and the call
silently computes unmasked attention. -/
theorem invalid_task_dispatch {T hs : ℕ} (blockSize : ℕ)
    (mask : Option (Fin T → Fin T → Bool)) (q k v : Fin T → Fin hs → ℝ)
    (M : JF) (ids : STensor) (am : Option STensor) (nto : Bool)
    (lbl props : Option STensor) :
    (∀ task : String, task ≠ "lm" → task ≠ "mlm" →
      hybridForward true blockSize task mask q k v =
        .error "Variable `task` must be either `lm` or `mlm`." ∧
      exceptOk (hybridForward false blockSize task mask q k v) = true) ∧
    (∀ task : String, task ≠ "generation" → task ≠ "physchem" →
        task ≠ "prediction" → task ≠ "mlm" →
      jfForward M ids task am nto =
        .error ("Variable `task` must be either `generation`, `mlm`, `prediction` or `physchem`. Passed value: " ++ task)) ∧
    (∀ task : String, task ≠ "lm" → task ≠ "generation" → task ≠ "mlm" →
        task ≠ "prediction" → task ≠ "physchem" →
      jfGetLoss M ids am task lbl props =
        .error "Variable `task` must be either `lm`, `mlm`, `prediction` or `finetune`.") := by
  refine ⟨?_, ?_, ?_⟩
  · intro task h1 h2
    constructor
    · simp [hybridForward, h1, h2]
    · simp [hybridForward, exceptOk]
  · intro task h3 h4 h5 h2
    simp [jfForward, h2, h3, h4, h5]
  · intro task h1 h3 h2 h5 h4
    simp [jfGetLoss, h1, h2, h3, h4, h5]

/-- Witness for C1: the fused attention path raises on `generation` (a tag
valid for the model but outside the attention layer's `{lm, mlm}`),
`Jointformer.forward` raises on `lm` (valid for `get_loss` but outside the
forward set), and `get_loss` raises on the unrecognized `causal`. -/
theorem invalid_task_dispatch_witness :
    (hybridForward true 4 "generation" (none : Option (Fin 1 → Fin 1 → Bool))
        zf1 zf1 zf1 = .error "Variable `task` must be either `lm` or `mlm`." ∧
      exceptOk (hybridForward false 4 "generation"
        (none : Option (Fin 1 → Fin 1 → Bool)) zf1 zf1 zf1) = true) ∧
    jfForward M10 ids24 "lm" none false =
      .error ("Variable `task` must be either `generation`, `mlm`, `prediction` or `physchem`. Passed value: " ++ "lm") ∧
    jfGetLoss M10 ids24 none "causal" none none =
      .error "Variable `task` must be either `lm`, `mlm`, `prediction` or `finetune`." :=
  ⟨(invalid_task_dispatch 4 none zf1 zf1 zf1 M10 ids24 none false none none).1
      "generation" (by decide) (by decide),
    (invalid_task_dispatch 4 none zf1 zf1 zf1 M10 ids24 none false none none).2.1
      "lm" (by decide) (by decide) (by decide) (by decide),
    (invalid_task_dispatch 4 none zf1 zf1 zf1 M10 ids24 none false none none).2.2
      "causal" (by decide) (by decide) (by decide) (by decide) (by decide)⟩

/-- Counterexample for C1 as stated: on the non-fused path,
`HybridSelfAttention.forward` with the unrecognized tag `causal` does NOT
raise — it returns an attention output. -/
theorem invalid_task_nonfused_no_raise :
    exceptOk (hybridForward false 4 "causal"
      (none : Option (Fin 1 → Fin 1 → Bool)) zf1 zf1 zf1) = true := rfl

/- ### C2: strictly causal attention for task `lm` on the explicit path -/

/-- C2: on the explicit (non-fused) path with task `lm`, for any sequence
length `T` at most the block size and any projected queries/keys, the
post-softmax attention weight of query position `i` onto key position `j`
is exactly zero whenever `j > i` — the fill writes `-inf` there and
`exp(-inf) = 0` — and the externally supplied mask argument has no effect
on the output of the call. -/
theorem lm_causal_attention {T hs : ℕ} (blockSize : ℕ) (hT : T ≤ blockSize)
    (q k : Fin T → Fin hs → ℝ) (i j : Fin T) (hij : (i : ℕ) < (j : ℕ)) :
    (∀ mask, softmaxRow (explicitAttScores blockSize "lm" mask q k i) j = 0) ∧
    (∀ mask mask' v, hybridForward false blockSize "lm" mask q k v =
      hybridForward false blockSize "lm" mask' q k v) := by
  constructor
  · intro mask
    have hm : maskCausalEntry blockSize (i : ℕ) (j : ℕ) = 0 := by
      unfold maskCausalEntry
      rw [if_neg]
      intro hcon
      omega
    simp [explicitAttScores, causalFill, softmaxRow, hm, expF]
  · intro mask mask' v
    simp [hybridForward, explicitAttScores]

/-- Witness for C2: sequence length 2, block size 4, zero projections,
query position 0 and key position 1. -/
theorem lm_causal_attention_witness :
    (2 ≤ 4) ∧ (((0 : Fin 2) : ℕ) < ((1 : Fin 2) : ℕ)) ∧
    softmaxRow (explicitAttScores 4 "lm" none zq2 zq2 (0 : Fin 2)) (1 : Fin 2) = 0 :=
  ⟨by decide, by decide,
    (lm_causal_attention 4 (by decide) zq2 zq2 0 1 (by decide)).1 none⟩

/- ### C3: the learning-rate schedule -/

/-- At the boundary iteration `warmup_iters` the cosine branch evaluates to
exactly the peak learning rate (cos 0 = 1). -/
theorem get_lr_at_warmup (lr ml : ℝ) (w d : ℕ) (hwd : w < d) :
    get_lr lr ml w d w = lr := by
  have h2 : ¬ d < w := by omega
  simp only [get_lr, lt_irrefl, if_false, h2]
  have h0 : ((w : ℝ) - (w : ℝ)) / ((d : ℝ) - (w : ℝ)) = 0 := by
    rw [sub_self, zero_div]
  rw [h0, mul_zero, Real.cos_zero]
  ring

/-- In the cosine phase, `get_lr` is the closed-form cosine interpolation. -/
theorem get_lr_cosine_phase (lr ml : ℝ) (w d : ℕ) (it : ℕ)
    (h1 : w ≤ it) (h2 : it ≤ d) :
    get_lr lr ml w d it =
      ml + 0.5 * (1 + Real.cos (Real.pi *
        (((it : ℝ) - (w : ℝ)) / ((d : ℝ) - (w : ℝ))))) * (lr - ml) := by
  have hn1 : ¬ it < w := by omega
  have hn2 : ¬ d < it := by omega
  simp only [get_lr, hn1, hn2, if_false]

/-- C3 (amended): under the preconditions `0 < warmup_iters <
lr_decay_iters`, `min_lr ≤ learning_rate` AND — as the counterexample
forces — `0 ≤ learning_rate`, the schedule `_get_lr` (a pure function of
the iteration index) agrees at the warmup/decay boundary with the linear
warmup formula (continuity), is monotonically non-decreasing on
`[0, warmup_iters]`, monotonically non-increasing on
`[warmup_iters, lr_decay_iters]`, and exactly `min_lr` for every iteration
`≥ lr_decay_iters`. -/
theorem lr_schedule (lr ml : ℝ) (w d : ℕ) (hw : 0 < w) (hwd : w < d)
    (hml : ml ≤ lr) (hlr : 0 ≤ lr) :
    (get_lr lr ml w d w = lr ∧ lr * (w : ℝ) / (w : ℝ) = lr) ∧
    (∀ i j : ℕ, i ≤ j → j ≤ w → get_lr lr ml w d i ≤ get_lr lr ml w d j) ∧
    (∀ i j : ℕ, w ≤ i → i ≤ j → j ≤ d → get_lr lr ml w d j ≤ get_lr lr ml w d i) ∧
    (∀ i : ℕ, d ≤ i → get_lr lr ml w d i = ml) := by
  have hwR : (0 : ℝ) < (w : ℝ) := by exact_mod_cast hw
  have hdwR : (0 : ℝ) < (d : ℝ) - (w : ℝ) := by
    have : (w : ℝ) < (d : ℝ) := by exact_mod_cast hwd
    linarith
  refine ⟨⟨get_lr_at_warmup lr ml w d hwd, ?_⟩, ?_, ?_, ?_⟩
  · rw [mul_div_assoc, div_self hwR.ne', mul_one]
  · -- warmup phase: non-decreasing
    intro i j hij hjw
    by_cases hj : j < w
    · have hi : i < w := by omega
      simp only [get_lr, hi, hj, if_true]
      apply div_le_div_of_nonneg_right ?_ hwR.le
      · exact mul_le_mul_of_nonneg_left (by exact_mod_cast hij) hlr
    · have hjw' : j = w := by omega
      rw [hjw', get_lr_at_warmup lr ml w d hwd]
      by_cases hi : i < w
      · simp only [get_lr, hi, if_true]
        rw [div_le_iff hwR]
        exact mul_le_mul_of_nonneg_left (by exact_mod_cast (le_of_lt hi)) hlr
      · have hiw : i = w := by omega
        rw [hiw, get_lr_at_warmup lr ml w d hwd]
  · -- cosine phase: non-increasing
    intro i j hwi hij hjd
    rw [get_lr_cosine_phase lr ml w d i hwi (by omega),
      get_lr_cosine_phase lr ml w d j (by omega) hjd]
    have hri0 : (0 : ℝ) ≤ ((i : ℝ) - (w : ℝ)) / ((d : ℝ) - (w : ℝ)) := by
      apply div_nonneg ?_ hdwR.le
      have : (w : ℝ) ≤ (i : ℝ) := by exact_mod_cast hwi
      linarith
    have hrj1 : ((j : ℝ) - (w : ℝ)) / ((d : ℝ) - (w : ℝ)) ≤ 1 := by
      rw [div_le_one hdwR]
      have : (j : ℝ) ≤ (d : ℝ) := by exact_mod_cast hjd
      linarith
    have hrij : ((i : ℝ) - (w : ℝ)) / ((d : ℝ) - (w : ℝ)) ≤
        ((j : ℝ) - (w : ℝ)) / ((d : ℝ) - (w : ℝ)) := by
      apply div_le_div_of_nonneg_right ?_ hdwR.le
      have : (i : ℝ) ≤ (j : ℝ) := by exact_mod_cast hij
      linarith
    have hcos : Real.cos (Real.pi * (((j : ℝ) - (w : ℝ)) / ((d : ℝ) - (w : ℝ)))) ≤
        Real.cos (Real.pi * (((i : ℝ) - (w : ℝ)) / ((d : ℝ) - (w : ℝ)))) := by
      apply Real.cos_le_cos_of_nonneg_of_le_pi
      · exact mul_nonneg Real.pi_pos.le hri0
      · calc Real.pi * (((j : ℝ) - (w : ℝ)) / ((d : ℝ) - (w : ℝ)))
            ≤ Real.pi * 1 := mul_le_mul_of_nonneg_left hrj1 Real.pi_pos.le
          _ = Real.pi := mul_one _
      · exact mul_le_mul_of_nonneg_left hrij Real.pi_pos.le
    have hfac : (0 : ℝ) ≤ lr - ml := by linarith
    nlinarith [mul_le_mul_of_nonneg_right (add_le_add_left hcos 1) hfac]
  · -- at or beyond the decay horizon: exactly the floor
    intro i hdi
    by_cases hi : d < i
    · have : ¬ i < w := by omega
      simp only [get_lr, this, hi, if_false, if_true]
    · have hid : i = d := by omega
      rw [hid, get_lr_cosine_phase lr ml w d d (by omega) (le_refl d)]
      rw [div_self hdwR.ne', mul_one, Real.cos_pi]
      ring

/-- Witness for C3: learning rate 1, floor 0, warmup 1, decay horizon 2 —
boundary continuity and the floor at iteration 5. -/
theorem lr_schedule_witness :
    ((0 : ℝ) ≤ 1) ∧ (get_lr 1 0 1 2 1 = 1 ∧ 1 * ((1 : ℕ) : ℝ) / ((1 : ℕ) : ℝ) = 1) ∧
    get_lr 1 0 1 2 5 = 0 :=
  ⟨by norm_num,
    (lr_schedule 1 0 1 2 (by norm_num) (by norm_num) (by norm_num) (by norm_num)).1,
    (lr_schedule 1 0 1 2 (by norm_num) (by norm_num) (by norm_num)
      (by norm_num)).2.2.2 5 (by norm_num)⟩

/-- Counterexample for C3 as stated: with `learning_rate = -1`,
`min_lr = -2`, `warmup_iters = 1`, `lr_decay_iters = 2` all stated
preconditions hold, yet the schedule is NOT non-decreasing on
`[0, warmup_iters]`: `lr(0) = 0 > -1 = lr(1)`. -/
theorem lr_schedule_counterexample :
    (0 < 1) ∧ (1 < 2) ∧ ((-2 : ℝ) ≤ -1) ∧ (0 ≤ 1) ∧ (1 ≤ 1) ∧
    ¬ (get_lr (-1) (-2) 1 2 0 ≤ get_lr (-1) (-2) 1 2 1) := by
  have h0 : get_lr (-1) (-2) 1 2 0 = 0 := by
    simp only [get_lr]
    norm_num
  have h1 : get_lr (-1) (-2) 1 2 1 = -1 := get_lr_at_warmup (-1) (-2) 1 2 (by norm_num)
  refine ⟨by norm_num, by norm_num, by norm_num, by norm_num, by norm_num, ?_⟩
  rw [h0, h1]
  norm_num

/- ### C9: top-1 sampling -/

/-- Every element of a list is bounded by `listMax`. -/
theorem le_listMax : ∀ (l : List ℝ) (x : ℝ), x ∈ l → x ≤ listMax l
  | [], x, hx => absurd hx (List.not_mem_nil x)
  | [a], x, hx => by
    rcases List.mem_singleton.1 hx with rfl
    exact le_refl (listMax [x])
  | a :: b :: m, x, hx => by
    rcases List.mem_cons.1 hx with rfl | hx'
    · exact le_max_left _ _
    · exact le_trans (le_listMax (b :: m) x hx') (le_max_right _ _)

/-- `listMax` of a nonempty list is one of its elements. -/
theorem listMax_mem : ∀ (l : List ℝ), l ≠ [] → listMax l ∈ l
  | [], h => absurd rfl h
  | [a], _ => List.mem_singleton_self a
  | a :: b :: m, _ => by
    show max a (listMax (b :: m)) ∈ a :: b :: m
    rcases max_choice a (listMax (b :: m)) with h | h
    · rw [h]; exact List.mem_cons_self _ _
    · rw [h]
      exact List.mem_cons_of_mem a (listMax_mem (b :: m) (by simp))

/-- Inverse-CDF sampling from a distribution that is zero on a prefix and
puts mass 1 right after it returns the index right after the prefix, for
every draw in `[0, 1)`. -/
theorem pick_zeros : ∀ (l₁ l₂ : List ℝ) (u : ℝ), (∀ x ∈ l₁, x = 0) →
    0 ≤ u → u < 1 → pick (l₁ ++ 1 :: l₂) u = l₁.length
  | [], l₂, u, _, _, hu1 => by
    show pick (1 :: l₂) u = 0
    unfold pick
    rw [if_pos hu1]
  | a :: l₁, l₂, u, h, hu0, hu1 => by
    have ha : a = 0 := h a (List.mem_cons_self a l₁)
    show pick (a :: (l₁ ++ 1 :: l₂)) u = l₁.length + 1
    unfold pick
    rw [ha, if_neg (not_lt.2 hu0), sub_zero,
      pick_zeros l₁ l₂ u (fun x hx => h x (List.mem_cons_of_mem a hx)) hu0 hu1]

/-- The top-1 pipeline on a row whose unique maximum `m` sits between two
lists of strictly smaller values returns the index of `m`, for every draw
in `[0, 1)`. -/
theorem pick_top1_unique (A B : List ℝ) (m u : ℝ)
    (hA : ∀ x ∈ A, x < m) (hB : ∀ x ∈ B, x < m)
    (hu0 : 0 ≤ u) (hu1 : u < 1) :
    pick (top1Probs (A ++ m :: B)) u = A.length := by
  have hne : (A ++ m :: B) ≠ [] := by simp
  have hmax : listMax (A ++ m :: B) = m := by
    apply le_antisymm
    · rcases List.mem_append.1 (listMax_mem _ hne) with hmem | hmem
      · exact (hA _ hmem).le
      · rcases List.mem_cons.1 hmem with heq | hmem'
        · exact le_of_eq heq
        · exact (hB _ hmem').le
    · exact le_listMax _ m (by simp)
  have hfil : top1Filter (A ++ m :: B) =
      A.map (fun _ => Fv.neginf) ++ Fv.val m :: B.map (fun _ => Fv.neginf) := by
    unfold top1Filter
    rw [hmax, List.map_append, List.map_cons, if_neg (lt_irrefl m),
      List.map_congr_left (fun x hx => if_pos (hA x hx)),
      List.map_congr_left (fun x hx => if_pos (hB x hx))]
  have hsumA : ((A.map fun _ => Fv.neginf).map expF).sum = 0 := by
    rw [List.map_map]
    apply List.sum_eq_zero
    intro x hx
    rcases List.mem_map.1 hx with ⟨a, _, rfl⟩
    rfl
  have hsumB : ((B.map fun _ => Fv.neginf).map expF).sum = 0 := by
    rw [List.map_map]
    apply List.sum_eq_zero
    intro x hx
    rcases List.mem_map.1 hx with ⟨a, _, rfl⟩
    rfl
  have hsum : ((top1Filter (A ++ m :: B)).map expF).sum = Real.exp m := by
    rw [hfil, List.map_append, List.map_cons, List.sum_append, List.sum_cons,
      hsumA, hsumB]
    show 0 + (Real.exp m + 0) = Real.exp m
    ring
  unfold top1Probs
  rw [hsum, hfil, List.map_append, List.map_cons, List.map_map, List.map_map]
  have hone : expF (Fv.val m) / Real.exp m = 1 := div_self (Real.exp_ne_zero m)
  rw [hone]
  have hz : ∀ x ∈ A.map ((fun f => expF f / Real.exp m) ∘ fun _ => Fv.neginf),
      x = 0 := by
    intro x hx
    rcases List.mem_map.1 hx with ⟨a, _, rfl⟩
    show expF Fv.neginf / Real.exp m = 0
    rw [show expF Fv.neginf = 0 from rfl, zero_div]
  rw [pick_zeros _ _ u hz hu0 hu1, List.length_map]

/-- C9 (amended): in the sampling step of `generate_single_token` with
`top_k = 1`, whenever the logit vector attains its maximum at a UNIQUE
index, the sampled token is that argmax for every temperature > 0 and
every outcome `u ∈ [0, 1)` of the random draw — the top-1 crop fills every
other logit with `-inf`, giving that index probability 1. -/
theorem sampleTop1_argmax (logits : List ℝ) (t u : ℝ) (i : ℕ)
    (hi : i < logits.length)
    (hmax : ∀ (j : ℕ) (hj : j < logits.length), j ≠ i → logits[j] < logits[i])
    (ht : 0 < t) (hu0 : 0 ≤ u) (hu1 : u < 1) :
    sampleTop1 logits t u = i := by
  unfold sampleTop1
  set scaled := logits.map (· / t) with hscaledDef
  have hslen : scaled.length = logits.length := List.length_map _ _
  have hsi : i < scaled.length := by omega
  have hsmax : ∀ (j : ℕ) (hj : j < scaled.length), j ≠ i →
      scaled[j] < scaled[i] := by
    intro j hj hji
    have hj' : j < logits.length := by omega
    simp only [hscaledDef, List.getElem_map]
    exact div_lt_div_of_pos_right (hmax j hj' hji) ht
  have hdecomp : scaled = scaled.take i ++ scaled[i] :: scaled.drop (i + 1) := by
    conv_lhs => rw [← List.take_append_drop i scaled]
    rw [List.drop_eq_getElem_cons hsi]
  have hA : ∀ x ∈ scaled.take i, x < scaled[i] := by
    intro x hx
    rcases List.mem_iff_getElem.1 hx with ⟨j, hj, rfl⟩
    have hjlen : j < i := by
      rw [List.length_take] at hj
      omega
    rw [List.getElem_take]
    exact hsmax j (by omega) (by omega)
  have hB : ∀ x ∈ scaled.drop (i + 1), x < scaled[i] := by
    intro x hx
    rcases List.mem_iff_getElem.1 hx with ⟨j, hj, rfl⟩
    have hjlen : i + 1 + j < scaled.length := by
      rw [List.length_drop] at hj
      omega
    rw [List.getElem_drop]
    exact hsmax (i + 1 + j) hjlen (by omega)
  rw [hdecomp, pick_top1_unique _ _ _ u hA hB hu0 hu1, List.length_take]
  omega

/-- Witness for C9: the logit vector `[0, 1]` has its unique maximum at
index 1; with temperature 1 and draw 1/2 the sampled token is 1. -/
theorem sampleTop1_argmax_witness :
    ((0 : ℝ) < 1) ∧ ((0 : ℝ) ≤ 1 / 2) ∧ ((1 / 2 : ℝ) < 1) ∧
    sampleTop1 [0, 1] 1 (1 / 2) = 1 :=
  ⟨by norm_num, by norm_num, by norm_num,
    sampleTop1_argmax [0, 1] 1 (1 / 2) 1 (by norm_num)
      (fun j hj hji => by
        have hj2 : j < 2 := by simpa using hj
        interval_cases j
        · show (0 : ℝ) < 1
          norm_num
        · exact absurd rfl hji)
      (by norm_num) (by norm_num) (by norm_num)⟩

/-- Counterexample for C9 as stated: the logit vector `[0, 0]` (a tie for
the maximum) with temperature 1 yields token 0 under the draw `u = 0` but
token 1 under the draw `u = 3/5` — both valid draws in `[0, 1)` — so
repeatedly sampling from this fixed logit vector does NOT always yield the
same token. -/
theorem sampleTop1_tie_counterexample :
    ((0 : ℝ) < 1) ∧ ((0 : ℝ) ≤ 0 ∧ (0 : ℝ) < 1) ∧
    ((0 : ℝ) ≤ 3 / 5 ∧ (3 / 5 : ℝ) < 1) ∧
    sampleTop1 [0, 0] 1 0 = 0 ∧ sampleTop1 [0, 0] 1 (3 / 5) = 1 := by
  have hmap : ([0, 0] : List ℝ).map (· / 1) = [0, 0] := by norm_num
  have hmaxv : listMax [0, 0] = (0 : ℝ) := by simp [listMax]
  have hfil : top1Filter [0, 0] = [Fv.val 0, Fv.val 0] := by
    simp [top1Filter, hmaxv, lt_irrefl]
  have hprobs : top1Probs [0, 0] = [1 / 2, 1 / 2] := by
    unfold top1Probs
    rw [hfil]
    simp [expF, Real.exp_zero]
    norm_num
  refine ⟨by norm_num, ⟨by norm_num, by norm_num⟩, ⟨by norm_num, by norm_num⟩, ?_, ?_⟩
  · unfold sampleTop1
    rw [hmap, hprobs]
    simp only [pick]
    rw [if_pos (by norm_num : (0 : ℝ) < 1 / 2)]
  · unfold sampleTop1
    rw [hmap, hprobs]
    simp only [pick]
    rw [if_neg (by norm_num : ¬ (3 / 5 : ℝ) < 1 / 2),
      if_pos (by norm_num : (3 / 5 : ℝ) - 1 / 2 < 1 / 2)]
